import Mathlib

/-
Verification of the Archive Studio job-processing engine against its
specification.  The definitions below are a shallow embedding of the code in
archive_studio_qt.py (classes AIProcessingThread, PDFImportThread, ProcessTab)
and util/DocumentAIHandler.py (method process_image).  External effects are
modelled explicitly: the file system and the AI backends appear as oracle
functions in an environment record, and the is_cancelled flag, which the GUI
thread sets at most once, is modelled by an optional threshold cancelAt: the
n-th read of the flag returns true exactly when cancelAt = some c with c <= n.
-/

set_option maxRecDepth 10000

/-- Python str whitespace characters, as used by str.strip and str.split. -/
def pyws (ch : Char) : Bool :=
  ch = ' ' || ch = '\t' || ch = '\n' || ch = '\r' || ch = Char.ofNat 11 || ch = Char.ofNat 12

/-- Embedding of Python str.strip on a character list. -/
def pystripList (l : List Char) : List Char :=
  ((l.dropWhile pyws).reverse.dropWhile pyws).reverse

/-- Embedding of Python str.strip. -/
def pystrip (s : String) : String :=
  String.mk (pystripList s.data)

/-- One row of the Document Store main_df, with the columns created by
PDFImportThread.run and read or written by AIProcessingThread. -/
structure PageRecord where
  Index : Nat
  Page : String
  Original_Text : String
  Corrected_Text : String
  Formatted_Text : String
  Separated_Text : String
  Translation : String
  Image_Path : String
  Text_Path : String
  Text_Toggle : String
  Relevance : String
deriving DecidableEq, Repr

/-- A function preset from settings.function_presets, as read by the
per-page processing functions. -/
structure Preset where
  name : String
  model : String
  general_instructions : String
  specific_instructions : String
  temperature : String
  val_text : String
deriving DecidableEq, Repr

/-- The preset lookup loop of process_single_page_htr and
process_single_page_correction: scan the configured list and take the first
preset whose name matches exactly. -/
def findPreset : List Preset → String → Option Preset
  | [], _ => none
  | p :: rest, n => if p.name = n then some p else findPreset rest n

/-- External collaborators of AIProcessingThread: the path helpers of the
main window, the file system, the settings object, and the AI backend.
api_result i is the text returned by call_ai_api_thread_safe for page i;
that wrapper catches every exception and returns the empty string, so a
failed provider call appears here as the empty string. -/
structure Env where
  get_full_path : String → String
  path_exists : String → Bool
  has_settings : Bool
  function_presets : List Preset
  api_result : Nat → String

/-- Embedding of AIProcessingThread.process_single_page_htr.  It returns
some text exactly when the source returns True after writing the text, and
none exactly when the source returns False: empty image path, missing image
file, missing settings, missing HTR preset, or an empty or whitespace-only
API result. -/
def process_single_page_htr (env : Env) (page_data : PageRecord) (page_index : Nat) :
    Option String :=
  if page_data.Image_Path = "" then none
  else
    let image_path := env.get_full_path page_data.Image_Path
    if env.path_exists image_path = false then none
    else if env.has_settings = false then none
    else
      match findPreset env.function_presets "HTR" with
      | none => none
      | some _ =>
        let result := env.api_result page_index
        if pystrip result = "" then none else some result

/-- Embedding of AIProcessingThread.process_single_page_correction: requires
original text whose strip is non-empty, the settings object, and a preset
named Correct_Text; the image path is allowed to be missing. -/
def process_single_page_correction (env : Env) (page_data : PageRecord) (page_index : Nat) :
    Option String :=
  if pystrip page_data.Original_Text = "" then none
  else if env.has_settings = false then none
  else
    match findPreset env.function_presets "Correct_Text" with
    | none => none
    | some _ =>
      let result := env.api_result page_index
      if pystrip result = "" then none else some result

/-- The write a successful HTR worker performs on its own row of the shared
dataframe: data.loc[i, Original_Text] := result and
data.loc[i, Text_Toggle] := Original_Text.  A failed worker leaves the row
untouched. -/
def htrRowUpdate (env : Env) (row : PageRecord) (i : Nat) : PageRecord :=
  match process_single_page_htr env row i with
  | some res => { row with Original_Text := res, Text_Toggle := "Original_Text" }
  | none => row

/-- Aggregate effect of the worker writes on the dataframe: each of the
first submitted rows is updated by its own worker (row-disjoint writes),
rows that were never submitted stay as they are.  The counter i is the index
of the first row of the remaining list. -/
def updateRows (env : Env) (submitted : Nat) : Nat → List PageRecord → List PageRecord
  | _, [] => []
  | i, row :: rest =>
    (if i < submitted then htrRowUpdate env row i else row) ::
      updateRows env submitted (i + 1) rest

/-- The content of the shared dataframe after all submitted workers have run. -/
def htrFinalDf (env : Env) (data : List PageRecord) (submitted : Nat) : List PageRecord :=
  updateRows env submitted 0 data

/-- The n-th read of the is_cancelled flag.  The flag starts false and the
cancel slot sets it at most once, so the reads are described by an optional
threshold. -/
def cancelRead (cancelAt : Option Nat) (n : Nat) : Bool :=
  match cancelAt with
  | none => false
  | some c => c ≤ n

/-- Number of pages submitted to the executor by process_htr_all: the submit
loop reads the flag once per page, in page order, and breaks at the first
read that returns true. -/
def submitCount (cancelAt : Option Nat) (total : Nat) : Nat :=
  match cancelAt with
  | none => total
  | some c => min c total

/-- Number of flag reads consumed by the submit loop: one per submitted page
plus the read that observed the flag, when the loop broke early. -/
def submitReads (cancelAt : Option Nat) (total : Nat) : Nat :=
  if submitCount cancelAt total < total then submitCount cancelAt total + 1 else total

/-- Whether the harvested future of page i reports success: the worker ran
process_single_page_htr on the row the page had at submission time. -/
def htrSuccess (env : Env) (data : List PageRecord) (i : Nat) : Bool :=
  match data[i]? with
  | some row => (process_single_page_htr env row i).isSome
  | none => false

/-- The harvest loop of process_htr_all: futures complete in the given
order, the flag is read once per iteration and a true read breaks the loop;
each harvested success increments processed_count.  Returns the count and
the number of flag reads consumed. -/
def harvestCount (env : Env) (data : List PageRecord) (cancelAt : Option Nat) :
    List Nat → Nat → Nat × Nat
  | [], _ => (0, 0)
  | i :: rest, r =>
    if cancelRead cancelAt r then (0, 1)
    else
      let res := harvestCount env data cancelAt rest (r + 1)
      ((if htrSuccess env data i then 1 else 0) + res.1, res.2 + 1)

/-- Terminal outcome of AIProcessingThread.process_htr_all.  noData is the
early error_occurred emission for an empty dataframe; done carries the final
content of the shared dataframe, the processed and total counts of the
processing_complete message, the number of pages submitted to the executor,
whether the terminal message was the cancelled one, and whether
sync_dataframe_to_main_window was invoked. -/
inductive HtrOutcome where
  | noData
  | done (final_df : List PageRecord) (processed total dispatched : Nat)
      (wasCancelled synced : Bool)
deriving DecidableEq, Repr

/-- Embedding of AIProcessingThread.process_htr_all.  data is the dataframe
the thread was handed (the very object main_window.main_df, not a copy), and
order is the completion order of the submitted futures.  All submitted
workers run to completion and write into their own rows even when the
harvest loop breaks early, because the executor context waits for them; the
final flag read chooses between the completed and cancelled messages, and
the explicit sync step runs only in the completed branch. -/
def process_htr_all (env : Env) (cancelAt : Option Nat) (order : List Nat)
    (data : List PageRecord) : HtrOutcome :=
  if data.length = 0 then .noData
  else
    let total := data.length
    let submitted := submitCount cancelAt total
    let sr := submitReads cancelAt total
    let h := harvestCount env data cancelAt order sr
    let endCancelled := cancelRead cancelAt (sr + h.2)
    .done (htrFinalDf env data submitted) h.1 total submitted endCancelled (!endCancelled)

/-- State of a started AIProcessingThread as seen by the Qt submission
check: the operation it runs and whether isRunning is still true. -/
structure AIThreadHandle where
  operation_type : String
  running : Bool
deriving DecidableEq, Repr

/-- The guard of ProcessTab.start_ai_processing: a thread object exists and
its isRunning returns true. -/
def threadBusy : Option AIThreadHandle → Bool
  | none => false
  | some t => t.running

/-- The part of the ProcessTab state that start_ai_processing reads or
writes: the current_thread slot and the Document Store main_df. -/
structure ProcessTabState where
  current_thread : Option AIThreadHandle
  main_df : List PageRecord
deriving DecidableEq, Repr

/-- What a call to start_ai_processing produced: the busy warning box, or a
freshly created and started worker thread. -/
inductive SubmitOutcome where
  | busyWarning
  | threadStarted
deriving DecidableEq, Repr

/-- Embedding of ProcessTab.start_ai_processing: when a thread exists and is
still running, the method shows the busy warning and returns at once;
otherwise it creates a new AIProcessingThread over main_df and starts it. -/
def start_ai_processing (st : ProcessTabState) (operation_type : String) :
    ProcessTabState × SubmitOutcome :=
  if threadBusy st.current_thread then (st, .busyWarning)
  else ({ st with current_thread := some ⟨operation_type, true⟩ }, .threadStarted)

/-- One page of an open PDF document, as PDFImportThread.run consumes it:
whether the rasterize, image save and text extraction steps all succeed, the
message of the exception raised when they do not, and the extracted text. -/
structure PdfPage where
  extract_ok : Bool
  err : String
  text : String
deriving DecidableEq, Repr

/-- External collaborators of PDFImportThread.run: the images directory and
the relative-path helper of the main window. -/
structure PdfEnv where
  images_directory : String
  get_relative_path : String → String

/-- Decimal digit characters of n, most significant first, empty for zero;
fuel bounds the recursion depth and any fuel of at least n is enough. -/
def natDigitsAux : Nat → Nat → List Char
  | 0, _ => []
  | _, 0 => []
  | fuel + 1, n + 1 =>
    natDigitsAux fuel ((n + 1) / 10) ++ [Nat.digitChar ((n + 1) % 10)]

/-- Decimal representation of a natural number, as the Python d format field
prints it. -/
def natDigits (n : Nat) : List Char :=
  if n = 0 then ['0'] else natDigitsAux n n

/-- Left zero-padding of the Python 0wd format field: pad with zeros up to
width w, never truncating. -/
def padZeroTo (w : Nat) (l : List Char) : List Char :=
  List.replicate (w - l.length) '0' ++ l

/-- The page name token computed by PDFImportThread.run for global index
new_index, from the two Python format fields 04d and p03d, both applied to
new_index + 1. -/
def pageToken (new_index : Nat) : String :=
  String.mk (padZeroTo 4 (natDigits (new_index + 1)) ++ ['_', 'p'] ++
    padZeroTo 3 (natDigits (new_index + 1)))

/-- The row PDFImportThread.run appends for the page with global index
new_index and extracted text. -/
def importRow (env : PdfEnv) (new_index : Nat) (text : String) : PageRecord :=
  { Index := new_index
    Page := pageToken new_index
    Original_Text := if pystrip text ≠ "" then text else ""
    Corrected_Text := ""
    Formatted_Text := ""
    Separated_Text := ""
    Translation := ""
    Image_Path := env.get_relative_path
      (env.images_directory ++ "/" ++ pageToken new_index ++ ".jpg")
    Text_Path := ""
    Text_Toggle := if pystrip text ≠ "" then "Original_Text" else "None"
    Relevance := "" }

/-- The batched page loop of PDFImportThread.run, with the flag reads in
program order.  Pages are processed from position p with read counter r and
accumulator acc.  At a batch boundary (p divisible by the batch size 5) the
outer loop reads the flag and a true read ends the loop; every page then
reads the flag once more, and a true read breaks out of the current batch,
skipping its remaining pages and continuing at the next boundary.  A page
whose extraction raises ends the whole loop with the exception message;
otherwise its row is appended and processing continues.  The skip argument
is true while the loop is discarding the rest of a batch after an inner
break: those pages are consumed without reads until the next boundary, where
the outer loop reads the flag again.  Returns the accumulated rows, the
final read counter, and the escaped exception. -/
def importPages (env : PdfEnv) (cancelAt : Option Nat) (startIdx : Nat) :
    List PdfPage → Bool → Nat → Nat → List PageRecord →
    List PageRecord × Nat × Option String
  | [], _, _, r, acc => (acc, r, none)
  | pg :: rest, skip, p, r, acc =>
    if skip = true ∧ ¬p % 5 = 0 then
      importPages env cancelAt startIdx rest true (p + 1) r acc
    else if p % 5 = 0 ∧ cancelRead cancelAt r = true then (acc, r + 1, none)
    else
      let rI := if p % 5 = 0 then r + 1 else r
      if cancelRead cancelAt rI = true then
        importPages env cancelAt startIdx rest true (p + 1) (rI + 1) acc
      else if pg.extract_ok = true then
        importPages env cancelAt startIdx rest false (p + 1) (rI + 1)
          (acc ++ [importRow env (startIdx + p) pg.text])
      else (acc, rI + 1, some pg.err)

/-- Terminal emission of PDFImportThread.run: the import_complete signal
with the number of imported pages, or the import_error signal with its
message. -/
inductive ImportEvent where
  | importComplete (count : Nat)
  | importError (msg : String)
deriving DecidableEq, Repr

/-- Embedding of PDFImportThread.run.  pdf is the result of fitz.open: an
exception message, or the list of pages of the opened document.  Returns the
final content of main_df together with the terminal emission.  Only the
completed branch concatenates the new rows onto main_df; every error branch,
including cancellation, leaves the store as it was. -/
def pdfImportRun (env : PdfEnv) (cancelAt : Option Nat)
    (pdf : Except String (List PdfPage)) (main_df : List PageRecord) :
    List PageRecord × ImportEvent :=
  match pdf with
  | .error e => (main_df, .importError ("Import error: " ++ e))
  | .ok pages =>
    let res := importPages env cancelAt main_df.length pages false 0 0 []
    match res.2.2 with
    | some e => (main_df, .importError ("Import error: " ++ e))
    | none =>
      let rows := res.1
      let r := res.2.1
      if cancelRead cancelAt r = false ∧ rows ≠ [] then
        (main_df ++ rows, .importComplete rows.length)
      else if cancelRead cancelAt (r + 1) = true then
        (main_df, .importError "Import cancelled by user")
      else (main_df, .importError "No pages were imported")

/-- The rows a full, uninterrupted import run appends: one importRow per
source page, in source order, with global indices continuing at startIdx. -/
def buildRows (env : PdfEnv) (startIdx : Nat) : Nat → List PdfPage → List PageRecord
  | _, [] => []
  | p, pg :: rest => importRow env (startIdx + p) pg.text :: buildRows env startIdx (p + 1) rest

/-- Number of is_cancelled reads a full, uninterrupted import run performs
while looping from position p over n pages: one per page plus one per batch
boundary crossed. -/
def ncReads : Nat → Nat → Nat
  | _, 0 => 0
  | p, n + 1 => (if p % 5 = 0 then 2 else 1) + ncReads (p + 1) n

/-- Embedding of Python text.split applied with separator newline: split at
every newline, keeping empty pieces. -/
def splitOnNl : List Char → List (List Char)
  | [] => [[]]
  | c :: rest =>
    if c = '\n' then [] :: splitOnNl rest
    else
      match splitOnNl rest with
      | [] => [[c]]
      | l :: ls => (c :: l) :: ls

/-- Embedding of Python line.split with no argument: split at whitespace
runs, dropping empty pieces.  cur is the word accumulated so far, in
reverse. -/
def pySplitRec : List Char → List Char → List (List Char)
  | [], cur => if cur = [] then [] else [cur.reverse]
  | c :: rest, cur =>
    if pyws c then
      if cur = [] then pySplitRec rest [] else cur.reverse :: pySplitRec rest []
    else pySplitRec rest (c :: cur)

/-- The per-line whitespace collapse of DocumentAIHandler.process_image:
join the whitespace-separated words of the line with single spaces. -/
def wsCollapse (l : List Char) : List Char :=
  List.intercalate [' '] (pySplitRec l [])

/-- The re.sub collapsing every run of three or more newlines down to two,
applied by DocumentAIHandler.process_image as its final cleanup step.
n counts the pending newlines not yet emitted. -/
def collapseNlAux : List Char → Nat → List Char
  | [], n => List.replicate (if 3 ≤ n then 2 else n) '\n'
  | c :: rest, n =>
    if c = '\n' then collapseNlAux rest (n + 1)
    else List.replicate (if 3 ≤ n then 2 else n) '\n' ++ c :: collapseNlAux rest 0

/-- Embedding of the raw-output cleanup of DocumentAIHandler.process_image:
the no-text placeholder for empty input, otherwise strip each line, keep the
non-empty ones with their inner whitespace runs collapsed to single spaces,
join with single newlines, collapse remaining newline runs of three or more,
and strip the whole result. -/
def documentAICleanup (text : String) : String :=
  if text = "" ∨ pystrip text = "" then "No text detected in document"
  else
    let lines := splitOnNl text.data
    let cleaned := ((lines.map pystripList).filter (· ≠ [])).map wsCollapse
    let joined := List.intercalate ['\n'] cleaned
    String.mk (pystripList (collapseNlAux joined 0))

/-- A store row holding only its index and image path, all text fields at
their defaults. -/
def blankRow (i : Nat) (img : String) : PageRecord :=
  { Index := i, Page := "", Original_Text := "", Corrected_Text := "",
    Formatted_Text := "", Separated_Text := "", Translation := "",
    Image_Path := img, Text_Path := "", Text_Toggle := "None", Relevance := "" }

/-- The default HTR preset of the settings object. -/
def htrPreset : Preset :=
  { name := "HTR", model := "gemini-1.5-pro", general_instructions := "gi",
    specific_instructions := "si", temperature := "0.3", val_text := "" }

/-- Environment for the three-page HTR scenario: the images of pages 0 and 2
exist on disk, the image of page 1 does not, and the backend returns text
for every call. -/
def envC5 : Env :=
  { get_full_path := fun p => p
    path_exists := fun p => p = "a.jpg" || p = "c.jpg"
    has_settings := true
    function_presets := [htrPreset]
    api_result := fun _ => "recognized text" }

/-- Three-page store for the missing-image scenario; page 1 references an
image file that does not exist. -/
def dataC5 : List PageRecord :=
  [blankRow 0 "a.jpg", blankRow 1 "missing.jpg", blankRow 2 "c.jpg"]

/-- Final store content of the three-page missing-image HTR run: pages 0
and 2 carry the recognized text, page 1 is untouched. -/
def dfC5val : List PageRecord :=
  [{ blankRow 0 "a.jpg" with
      Original_Text := "recognized text"
      Text_Toggle := "Original_Text" },
    blankRow 1 "missing.jpg",
    { blankRow 2 "c.jpg" with
      Original_Text := "recognized text"
      Text_Toggle := "Original_Text" }]

/-- Environment for the cancellation scenarios: every image exists and the
backend returns text for every call. -/
def envC2 : Env :=
  { get_full_path := fun p => p
    path_exists := fun _ => true
    has_settings := true
    function_presets := [htrPreset]
    api_result := fun _ => "recognized text" }

/-- Two-page store for the cancellation scenario. -/
def dataC2 : List PageRecord := [blankRow 0 "a.jpg", blankRow 1 "b.jpg"]

/-- Final store content of the cancelled two-page HTR run: the page
dispatched before the flag was set keeps its result, the other row is
untouched. -/
def dfC2val : List PageRecord :=
  [{ blankRow 0 "a.jpg" with
      Original_Text := "recognized text"
      Text_Toggle := "Original_Text" },
    blankRow 1 "b.jpg"]

/-- Environment whose preset list has no entry named HTR: only a
Correct_Text preset is configured, and every image exists. -/
def envC4 : Env :=
  { get_full_path := fun p => p
    path_exists := fun _ => true
    has_settings := true
    function_presets := [{ htrPreset with name := "Correct_Text" }]
    api_result := fun _ => "recognized text" }

/-- Import environment: a project images directory and an identity
relative-path helper. -/
def envPdf : PdfEnv :=
  { images_directory := "images"
    get_relative_path := fun p => p }

/-- A source page whose rasterization and text extraction succeed. -/
def okPage (t : String) : PdfPage := { extract_ok := true, err := "", text := t }

/-- Seven-page source document whose fourth page raises during
rasterization. -/
def pagesC3 : List PdfPage :=
  [okPage "t1", okPage "t2", okPage "t3",
    { extract_ok := false, err := "cannot rasterize page 4", text := "" },
    okPage "t5", okPage "t6", okPage "t7"]

/-- Numeric value of a decimal digit character. -/
def digitVal (c : Char) : Nat := c.toNat - 48

/-- Value of a decimal digit string, most significant digit first; leading
zeros are ignored. -/
def ofDecimal (l : List Char) : Nat :=
  l.foldl (fun a c => a * 10 + digitVal c) 0

/-- The number encoded in the leading numeric field of a page name token:
the digits before the underscore, read as a decimal numeral. -/
def tokenNum (s : String) : Nat :=
  ofDecimal (s.data.takeWhile (fun c => c ≠ '_'))

/-
Theorems.  Each claim of the specification is settled below; general lemmas
about the loop functions come first.
-/

/-- C1: for every job type and store state, submitting while another job is
still running is rejected with the busy warning box, no new worker thread is
created or started, and the Document Store main_df is left unchanged. -/
theorem busy_submission_rejected (st : ProcessTabState) (op : String)
    (h : threadBusy st.current_thread = true) :
    start_ai_processing st op = (st, .busyWarning) := by
  simp [start_ai_processing, h]

/-- Witness for C1: a state with a running htr_all thread rejects a
correct_text submission unchanged. -/
theorem busy_submission_rejected_case :
    start_ai_processing ⟨some ⟨"htr_all", true⟩, dataC2⟩ "correct_text" =
      (⟨some ⟨"htr_all", true⟩, dataC2⟩, .busyWarning) :=
  busy_submission_rejected ⟨some ⟨"htr_all", true⟩, dataC2⟩ "correct_text" (by decide)

/-- C6: if the source PDF cannot be opened, fitz.open raises, the import
emits an error and ends before any page work, and the Document Store gains
no records, whatever the store content and the cancel flag. -/
theorem unopenable_pdf_aborts_before_append (env : PdfEnv) (cancelAt : Option Nat)
    (e : String) (df : List PageRecord) :
    pdfImportRun env cancelAt (.error e) df = (df, .importError ("Import error: " ++ e)) := rfl

/-- C8: the Document AI raw-output cleanup trims lines, collapses inner
whitespace runs, drops blank lines and trims the whole result; the spec
example and a second input with tabs and trailing blanks normalize as
stated. -/
theorem document_ai_cleanup_normalizes :
    documentAICleanup "Line one   \n\n\n\nLine   two\n\n\n" = "Line one\nLine two" ∧
    documentAICleanup "  a\tb  \n\n\nc  " = "a b\nc" :=
  ⟨by decide, by decide⟩

/-- Counterexample to C2: a two-page HTR job cancelled after one submission
ends with wasCancelled true and synced false: the hand-back step
sync_dataframe_to_main_window is not invoked in the cancelled branch, so no
snapshot is handed back after the job ends.  The result of the dispatched
page is nevertheless present in the shared dataframe. -/
theorem cancelled_htr_skips_syncback :
    process_htr_all envC2 (some 1) [0] dataC2 = .done dfC2val 0 2 1 true false ∧
    (dfC2val[0]?).map PageRecord.Original_Text = some "recognized text" ∧
    dfC2val ≠ dataC2 :=
  ⟨by decide, by decide, by decide⟩

/-- Counterexample to C3: in a seven-page import whose fourth page raises
during rasterization, the whole import aborts with an import error and the
store stays empty, instead of skipping that page alone and appending the
other six records. -/
theorem midbatch_page_failure_aborts_import :
    pdfImportRun envPdf none (.ok pagesC3) [] =
      ([], .importError "Import error: cannot rasterize page 4") ∧
    pagesC3.length = 7 :=
  ⟨by decide, by decide⟩

/-- Counterexample to C4: with no preset named HTR configured, a two-page
job does not fail before dispatch: both pages are dispatched, each per-page
task fails at its own preset lookup, and the run ends as a normal completion
reporting zero of two with the store unchanged. -/
theorem missing_preset_job_still_dispatches :
    findPreset envC4.function_presets "HTR" = none ∧
    process_htr_all envC4 none [0, 1] dataC2 = .done dataC2 0 2 2 false true :=
  ⟨by decide, by decide⟩

/-- Counterexample to C9: the token generated for global index 7 is
0008_p008, not an 0008_p007 token: both numeric fields of the Python format
string are applied to the index plus one. -/
theorem page_token_example_mismatch :
    pageToken 7 ≠ "0008_p007" ∧ pageToken 7 = "0008_p008" :=
  ⟨by decide, by decide⟩

/-- Pointwise description of the worker writes: row k of the updated list is
row k of the original, updated by its worker exactly when its global index
is below the submitted count. -/
theorem updateRows_getElem (env : Env) (s : Nat) :
    ∀ (l : List PageRecord) (base k : Nat),
      (updateRows env s base l)[k]? = (l[k]?).map
        (fun row => if base + k < s then htrRowUpdate env row (base + k) else row) := by
  intro l
  induction l with
  | nil => intro base k; simp [updateRows]
  | cons row rest ih =>
    intro base k
    cases k with
    | zero => simp [updateRows]
    | succ k =>
      have := ih (base + 1) k
      simpa [updateRows, Nat.add_assoc, Nat.add_comm 1 k] using this

/-- With the flag never set, the harvest loop drains every future and counts
exactly the successful ones. -/
theorem harvestCount_none (env : Env) (data : List PageRecord) :
    ∀ (order : List Nat) (r : Nat),
      harvestCount env data none order r =
        (order.countP (htrSuccess env data), order.length) := by
  intro order
  induction order with
  | nil => intro r; simp [harvestCount]
  | cons i rest ih =>
    intro r
    simp only [harvestCount, cancelRead, List.countP_cons, List.length_cons, ih (r + 1)]
    by_cases h : htrSuccess env data i <;> (simp [h]; try omega)

/-- Shape of an HTR run that is never cancelled: every page is submitted,
every future is harvested, the count is the number of successful pages, the
terminal message is the completed one and the dataframe is synced back. -/
theorem process_htr_all_none (env : Env) (data : List PageRecord) (order : List Nat)
    (hperm : order.Perm (List.range data.length)) (hne : data ≠ []) :
    process_htr_all env none order data =
      .done (htrFinalDf env data data.length)
        ((List.range data.length).countP (htrSuccess env data))
        data.length data.length false true := by
  have hlen : ¬data.length = 0 := by simpa [List.length_eq_zero] using hne
  simp [process_htr_all, hlen, submitReads, submitCount, harvestCount_none,
    cancelRead, hperm.countP_eq]

/-- C5: in an HTR job that runs to completion, a page whose image path is
empty or whose image file does not exist is skipped and excluded from the
success count rather than aborting the batch, and its row keeps all its
fields; in the three-page scenario with one missing image the job completes
with counts two of three and the text of the missing-image page stays
empty. -/
theorem missing_image_page_skipped_not_fatal :
    (∀ (env : Env) (data : List PageRecord) (order : List Nat) (i : Nat) (row : PageRecord),
      order.Perm (List.range data.length) →
      data ≠ [] →
      data[i]? = some row →
      row.Image_Path = "" ∨ env.path_exists (env.get_full_path row.Image_Path) = false →
      htrSuccess env data i = false ∧
      ∃ df, process_htr_all env none order data =
          .done df ((List.range data.length).countP (htrSuccess env data))
            data.length data.length false true ∧
        df[i]? = some row) ∧
    process_htr_all envC5 none [0, 1, 2] dataC5 = .done dfC5val 2 3 3 false true ∧
    (dfC5val[1]?).map PageRecord.Original_Text = some "" := by
  refine ⟨?_, by decide, by decide⟩
  intro env data order i row hperm hne hrow hmiss
  have hproc : process_single_page_htr env row i = none := by
    rcases hmiss with h | h
    · simp [process_single_page_htr, h]
    · by_cases h0 : row.Image_Path = ""
      · simp [process_single_page_htr, h0]
      · simp [process_single_page_htr, h0, h]
  have hsucc : htrSuccess env data i = false := by
    simp [htrSuccess, hrow, hproc]
  refine ⟨hsucc, htrFinalDf env data data.length, process_htr_all_none env data order hperm hne, ?_⟩
  have hget := updateRows_getElem env data.length data 0 i
  rw [htrFinalDf, hget, hrow]
  simp [htrRowUpdate, hproc]

/-- Witness for C5: the three-page store with the image of page 1 missing
satisfies the hypotheses, page 1 is skipped and left untouched. -/
theorem missing_image_page_skipped_not_fatal_case :
    htrSuccess envC5 dataC5 1 = false ∧
    ∃ df, process_htr_all envC5 none [0, 1, 2] dataC5 =
        .done df ((List.range dataC5.length).countP (htrSuccess envC5 dataC5))
          dataC5.length dataC5.length false true ∧
      df[1]? = some (blankRow 1 "missing.jpg") :=
  missing_image_page_skipped_not_fatal.1 envC5 dataC5 [0, 1, 2] 1
    (blankRow 1 "missing.jpg") (by decide) (by decide) (by decide) (by decide)

/-- Amended C2: when an HTR job ends cancelled, the explicit hand-back step
sync_dataframe_to_main_window is skipped, yet the results of every page
dispatched before the flag took effect are preserved: the thread works
directly on the shared main dataframe, so each dispatched worker has already
written its result into its own row, and rows never dispatched are
untouched. -/
theorem cancelled_htr_preserves_results (env : Env) (cancelAt : Option Nat)
    (order : List Nat) (data df : List PageRecord) (cnt total d : Nat) (sy : Bool)
    (h : process_htr_all env cancelAt order data = .done df cnt total d true sy) :
    sy = false ∧
    ∀ i, df[i]? = (data[i]?).map
      (fun row => if i < d then htrRowUpdate env row i else row) := by
  by_cases hlen : data.length = 0
  · simp [process_htr_all, hlen] at h
  · simp only [process_htr_all, if_neg hlen, HtrOutcome.done.injEq] at h
    obtain ⟨hdf, _, _, hd, hcanc, hsy⟩ := h
    constructor
    · rw [← hsy, hcanc]; rfl
    · intro i
      rw [← hdf, ← hd, htrFinalDf, updateRows_getElem]
      simp

/-- Witness for the amended C2: the cancelled two-page run keeps the result
of the dispatched page and the untouched second row. -/
theorem cancelled_htr_preserves_results_case :
    false = false ∧
    ∀ i, dfC2val[i]? = (dataC2[i]?).map
      (fun row => if i < 1 then htrRowUpdate envC2 row i else row) :=
  cancelled_htr_preserves_results envC2 (some 1) [0] dataC2 dfC2val 0 2 1 false (by decide)

/-- updateRows is the identity when no page can be processed. -/
theorem updateRows_id (env : Env) (s : Nat)
    (hnone : ∀ (row : PageRecord) (i : Nat), process_single_page_htr env row i = none) :
    ∀ (l : List PageRecord) (base : Nat), updateRows env s base l = l := by
  intro l
  induction l with
  | nil => intro base; rfl
  | cons row rest ih =>
    intro base
    simp [updateRows, htrRowUpdate, hnone, ih]

/-- Amended C4: a job whose preset name has no exact match does not fail
before dispatch; instead every page is dispatched and each per-page task
fails at its own preset lookup, so the job runs page by page to a normal
completion reporting zero successes with the store unchanged.  The same
per-page behaviour holds for the correction job. -/
theorem missing_preset_fails_each_page_not_job :
    (∀ (env : Env) (row : PageRecord) (i : Nat),
      findPreset env.function_presets "HTR" = none →
      process_single_page_htr env row i = none) ∧
    (∀ (env : Env) (row : PageRecord) (i : Nat),
      findPreset env.function_presets "Correct_Text" = none →
      process_single_page_correction env row i = none) ∧
    (∀ (env : Env) (order : List Nat) (data : List PageRecord),
      order.Perm (List.range data.length) →
      data ≠ [] →
      findPreset env.function_presets "HTR" = none →
      process_htr_all env none order data =
        .done data 0 data.length data.length false true) := by
  have hhtr : ∀ (env : Env) (row : PageRecord) (i : Nat),
      findPreset env.function_presets "HTR" = none →
      process_single_page_htr env row i = none := by
    intro env row i hfp
    simp [process_single_page_htr, hfp]
  refine ⟨hhtr, ?_, ?_⟩
  · intro env row i hfp
    simp [process_single_page_correction, hfp]
  · intro env order data hperm hne hfp
    have hsucc : ∀ i, htrSuccess env data i = false := by
      intro i
      unfold htrSuccess
      cases hrow : data[i]? with
      | none => rfl
      | some row => simp [hhtr env row i hfp]
    rw [process_htr_all_none env data order hperm hne]
    have hdf : htrFinalDf env data data.length = data :=
      updateRows_id env data.length (fun row i => hhtr env row i hfp) data 0
    have hcnt : (List.range data.length).countP (htrSuccess env data) = 0 := by
      simp [List.countP_eq_zero, hsucc]
    rw [hdf, hcnt]

/-- Witness for the amended C4: in the environment without an HTR preset the
per-page task of page 0 fails at its preset lookup. -/
theorem missing_preset_fails_each_page_not_job_case :
    process_single_page_htr envC4 (blankRow 0 "a.jpg") 0 = none :=
  missing_preset_fails_each_page_not_job.1 envC4 (blankRow 0 "a.jpg") 0 (by decide)

/-- Reads of the is_cancelled flag are monotone: once a read returns true,
every later read does. -/
theorem cancelRead_mono (cancelAt : Option Nat) {i j : Nat}
    (hij : i ≤ j) (h : cancelRead cancelAt i = true) : cancelRead cancelAt j = true := by
  cases cancelAt with
  | none => simp [cancelRead] at h
  | some c =>
    simp only [cancelRead, decide_eq_true_eq] at h ⊢
    omega

/-- The read counter of the import page loop never decreases. -/
theorem importPages_reads_le (env : PdfEnv) (cancelAt : Option Nat) (si : Nat) :
    ∀ (pgs : List PdfPage) (skip : Bool) (p r : Nat) (acc : List PageRecord),
      r ≤ (importPages env cancelAt si pgs skip p r acc).2.1 := by
  intro pgs
  induction pgs with
  | nil => intro skip p r acc; simp [importPages]
  | cons pg rest ih =>
    intro skip p r acc
    simp only [importPages]
    split_ifs <;>
      first
        | (refine le_trans ?_ (ih _ _ _ _); omega)
        | exact Nat.le_succ r
        | exact Nat.le_add_right r 2

/-- Closed form of one step of the import loop when the flag is never set:
no break can fire, so a page is either skipped silently in skip mode,
processed, or raises. -/
theorem importPages_none_cons (env : PdfEnv) (si : Nat) (pg : PdfPage)
    (rest : List PdfPage) (skip : Bool) (p r : Nat) (acc : List PageRecord) :
    importPages env none si (pg :: rest) skip p r acc =
      if skip = true ∧ ¬p % 5 = 0 then importPages env none si rest true (p + 1) r acc
      else if pg.extract_ok = true then
        importPages env none si rest false (p + 1) ((if p % 5 = 0 then r + 1 else r) + 1)
          (acc ++ [importRow env (si + p) pg.text])
      else (acc, (if p % 5 = 0 then r + 1 else r) + 1, some pg.err) := by
  simp [importPages, cancelRead]

/-- A run of the import loop whose final flag read comes back false behaved
exactly like a run with the flag never set: the reads happen at strictly
increasing indices, so none of them can have returned true. -/
theorem importPages_eq_none_run (env : PdfEnv) (cancelAt : Option Nat) (si : Nat) :
    ∀ (pgs : List PdfPage) (skip : Bool) (p r : Nat) (acc : List PageRecord),
      cancelRead cancelAt ((importPages env cancelAt si pgs skip p r acc).2.1) = false →
      importPages env cancelAt si pgs skip p r acc =
        importPages env none si pgs skip p r acc := by
  intro pgs
  induction pgs with
  | nil => intro skip p r acc _; rfl
  | cons pg rest ih =>
    intro skip p r acc hfin
    rw [importPages_none_cons]
    simp only [importPages] at hfin ⊢
    by_cases hA : skip = true ∧ ¬p % 5 = 0
    · simp only [if_pos hA] at hfin ⊢
      exact ih true (p + 1) r acc hfin
    · simp only [if_neg hA] at hfin ⊢
      by_cases hB : p % 5 = 0 ∧ cancelRead cancelAt r = true
      · simp only [if_pos hB] at hfin
        have hmono := cancelRead_mono cancelAt (Nat.le_succ r) hB.2
        simp only [hmono] at hfin
        cases hfin
      · simp only [if_neg hB] at hfin ⊢
        by_cases hC : cancelRead cancelAt (if p % 5 = 0 then r + 1 else r) = true
        · simp only [if_pos hC] at hfin
          have hle : (if p % 5 = 0 then r + 1 else r) ≤
              (importPages env cancelAt si rest true (p + 1)
                ((if p % 5 = 0 then r + 1 else r) + 1) acc).2.1 :=
            le_trans (Nat.le_succ _) (importPages_reads_le env cancelAt si rest true (p + 1) _ acc)
          have hmono := cancelRead_mono cancelAt hle hC
          simp only [hmono] at hfin
          cases hfin
        · simp only [if_neg hC] at hfin ⊢
          by_cases hD : pg.extract_ok = true
          · simp only [if_pos hD] at hfin ⊢
            exact ih false (p + 1) _ _ hfin
          · simp only [if_neg hD]


/-- A run of the import loop with the flag never set and every page
extraction succeeding processes all pages in order, appending one row per
page and consuming the full read budget. -/
theorem importPages_none_ok (env : PdfEnv) (si : Nat) :
    ∀ (pgs : List PdfPage) (p r : Nat) (acc : List PageRecord),
      (∀ pg ∈ pgs, pg.extract_ok = true) →
      importPages env none si pgs false p r acc =
        (acc ++ buildRows env si p pgs, r + ncReads p pgs.length, none) := by
  intro pgs
  induction pgs with
  | nil => intro p r acc _; simp [importPages, buildRows, ncReads]
  | cons pg rest ih =>
    intro p r acc hok
    have hpg : pg.extract_ok = true := hok pg (List.mem_cons_self pg rest)
    have hrest : ∀ q ∈ rest, q.extract_ok = true :=
      fun q hq => hok q (List.mem_cons_of_mem pg hq)
    rw [importPages_none_cons, if_neg (by simp), if_pos hpg, ih (p + 1) _ _ hrest]
    simp only [buildRows, ncReads, List.length_cons, Prod.mk.injEq]
    refine ⟨by simp, ?_, trivial⟩
    by_cases h5 : p % 5 = 0 <;> simp [h5] <;> omega

/-- A run of the import loop with the flag never set and some page failing
extraction escapes with an exception. -/
theorem importPages_none_bad (env : PdfEnv) (si : Nat) :
    ∀ (pgs : List PdfPage) (p r : Nat) (acc : List PageRecord),
      (∃ pg ∈ pgs, pg.extract_ok = false) →
      ((importPages env none si pgs false p r acc).2.2).isSome = true := by
  intro pgs
  induction pgs with
  | nil => intro p r acc h; simp at h
  | cons pg rest ih =>
    intro p r acc hbad
    rw [importPages_none_cons, if_neg (by simp)]
    by_cases hpg : pg.extract_ok = true
    · rw [if_pos hpg]
      rcases hbad with ⟨q, hq, hqf⟩
      rcases List.mem_cons.mp hq with rfl | hq2
      · rw [hpg] at hqf; cases hqf
      · exact ih (p + 1) _ _ ⟨q, hq2, hqf⟩
    · rw [if_neg hpg]
      rfl

/-- The rows of a full import have one entry per source page. -/
theorem buildRows_length (env : PdfEnv) (si : Nat) :
    ∀ (pgs : List PdfPage) (p : Nat), (buildRows env si p pgs).length = pgs.length := by
  intro pgs
  induction pgs with
  | nil => intro p; rfl
  | cons pg rest ih => intro p; simp [buildRows, ih (p + 1)]

/-- Row k of a full import is the row built for source page k at global
index si plus position. -/
theorem buildRows_getElem (env : PdfEnv) (si : Nat) :
    ∀ (pgs : List PdfPage) (p k : Nat),
      (buildRows env si p pgs)[k]? =
        (pgs[k]?).map (fun pg => importRow env (si + p + k) pg.text) := by
  intro pgs
  induction pgs with
  | nil => intro p k; simp [buildRows]
  | cons pg rest ih =>
    intro p k
    cases k with
    | zero => simp [buildRows]
    | succ k =>
      have hrec := ih (p + 1) k
      have harith : si + (p + 1) + k = si + p + (k + 1) := by omega
      rw [harith] at hrec
      simp [buildRows, hrec]

/-- Amended C3: a page whose rasterization or text extraction raises
mid-batch is not skipped individually; with the flag never set, the
exception escapes the page loop, the whole import aborts with an
import_error emission and the Document Store gains no records at all. -/
theorem page_extraction_failure_aborts_whole_import (env : PdfEnv)
    (pages : List PdfPage) (df : List PageRecord)
    (hbad : ∃ pg ∈ pages, pg.extract_ok = false) :
    (pdfImportRun env none (.ok pages) df).1 = df ∧
    ∃ m, (pdfImportRun env none (.ok pages) df).2 = .importError m := by
  have hsome := importPages_none_bad env df.length pages 0 0 [] hbad
  rcases hres : importPages env none df.length pages false 0 0 [] with ⟨rows, r, exc⟩
  rw [hres] at hsome
  cases exc with
  | none => simp at hsome
  | some e =>
    refine ⟨by simp [pdfImportRun, hres], "Import error: " ++ e,
      by simp [pdfImportRun, hres]⟩

/-- Witness for the amended C3: the seven-page document whose fourth page
fails satisfies the hypotheses; the store is unchanged and an error is
emitted. -/
theorem page_extraction_failure_aborts_whole_import_case :
    (pdfImportRun envPdf none (.ok pagesC3) []).1 = [] ∧
    ∃ m, (pdfImportRun envPdf none (.ok pagesC3) []).2 = .importError m :=
  page_extraction_failure_aborts_whole_import envPdf pagesC3 []
    ⟨pagesC3[3], by decide, by decide⟩

/-- C7: every import run that ends with the completed emission appended one
row per source page, in source order, with Index fields exactly the old
store length, plus one, and so on, gapless, while the existing rows keep
their positions and content. -/
theorem import_indices_contiguous_from_store_length (env : PdfEnv) (cancelAt : Option Nat)
    (pages : List PdfPage) (df fdf : List PageRecord) (n : Nat)
    (h : pdfImportRun env cancelAt (.ok pages) df = (fdf, .importComplete n)) :
    fdf = df ++ buildRows env df.length 0 pages ∧
    n = pages.length ∧
    (∀ k, k < n → ((buildRows env df.length 0 pages)[k]?).map PageRecord.Index =
      some (df.length + k)) ∧
    (∀ k, k < n → (buildRows env df.length 0 pages)[k]? =
      (pages[k]?).map (fun pg => importRow env (df.length + k) pg.text)) ∧
    (∀ j, j < df.length → fdf[j]? = df[j]?) := by
  rcases hres : importPages env cancelAt df.length pages false 0 0 [] with ⟨rows, r, exc⟩
  simp only [pdfImportRun, hres] at h
  cases exc with
  | some e => simp at h
  | none =>
    split_ifs at h with h1 h2
    · simp only [Prod.mk.injEq, ImportEvent.importComplete.injEq] at h
      obtain ⟨hfdf, hn⟩ := h
      have heq := importPages_eq_none_run env cancelAt df.length pages false 0 0 []
        (by rw [hres]; exact h1.1)
      have hok : ∀ pg ∈ pages, pg.extract_ok = true := by
        by_contra hcon
        push_neg at hcon
        obtain ⟨pg, hpg, hne⟩ := hcon
        have hfalse : pg.extract_ok = false := by
          cases hx : pg.extract_ok
          · rfl
          · exact absurd hx hne
        have hbad := importPages_none_bad env df.length pages 0 0 [] ⟨pg, hpg, hfalse⟩
        rw [← heq, hres] at hbad
        simp at hbad
      have hrows := importPages_none_ok env df.length pages 0 0 [] hok
      rw [← heq, hres] at hrows
      simp only [List.nil_append, Prod.mk.injEq] at hrows
      have hrows_eq : rows = buildRows env df.length 0 pages := hrows.1
      refine ⟨?_, ?_, ?_, ?_, ?_⟩
      · rw [← hfdf, hrows_eq]
      · rw [← hn, hrows_eq, buildRows_length]
      · intro k hk
        have hkp : k < pages.length := by
          rw [← hn, hrows_eq, buildRows_length] at hk
          exact hk
        rw [buildRows_getElem, List.getElem?_eq_getElem hkp]
        simp [importRow]
      · intro k hk
        rw [buildRows_getElem]
        simp
      · intro j hj
        rw [← hfdf]
        exact List.getElem?_append_left hj
    · simp at h
    · simp at h

/-- Witness for C7: importing a two-page document into a one-row store
appends rows with Index fields 1 and 2 behind the untouched existing row. -/
theorem import_indices_contiguous_from_store_length_case :
    [blankRow 0 "z.jpg"] ++ buildRows envPdf 1 0 [okPage "t1", okPage "t2"] =
      [blankRow 0 "z.jpg"] ++ buildRows envPdf 1 0 [okPage "t1", okPage "t2"] ∧
    (2 : Nat) = ([okPage "t1", okPage "t2"] : List PdfPage).length ∧
    (∀ k, k < 2 → ((buildRows envPdf 1 0 [okPage "t1", okPage "t2"])[k]?).map
      PageRecord.Index = some (1 + k)) ∧
    (∀ k, k < 2 → (buildRows envPdf 1 0 [okPage "t1", okPage "t2"])[k]? =
      (([okPage "t1", okPage "t2"] : List PdfPage)[k]?).map
        (fun pg => importRow envPdf (1 + k) pg.text)) ∧
    (∀ j, j < 1 → ([blankRow 0 "z.jpg"] ++
        buildRows envPdf 1 0 [okPage "t1", okPage "t2"])[j]? =
      ([blankRow 0 "z.jpg"] : List PageRecord)[j]?) := by
  have := import_indices_contiguous_from_store_length envPdf none
    [okPage "t1", okPage "t2"] [blankRow 0 "z.jpg"]
    ([blankRow 0 "z.jpg"] ++ buildRows envPdf 1 0 [okPage "t1", okPage "t2"]) 2 (by decide)
  simpa using this

/-- A run of the import loop that can only fail by cancellation, with the
flag set early enough to be observed by one of the loop reads, escapes no
exception and ends with the flag visible at the final read counter. -/
theorem importPages_cancel_hits (env : PdfEnv) (si c : Nat) :
    ∀ (pgs : List PdfPage) (skip : Bool) (p r : Nat) (acc : List PageRecord),
      (∀ pg ∈ pgs, pg.extract_ok = true) →
      (skip = true → c < r) →
      (c ≤ r + ncReads p pgs.length ∨ c < r) →
      (importPages env (some c) si pgs skip p r acc).2.2 = none ∧
      c ≤ (importPages env (some c) si pgs skip p r acc).2.1 := by
  intro pgs
  induction pgs with
  | nil =>
    intro skip p r acc _ _ hb
    refine ⟨rfl, ?_⟩
    simp only [ncReads] at hb
    simp only [importPages]
    omega
  | cons pg rest ih =>
    intro skip p r acc hok hskip hb
    have hpg : pg.extract_ok = true := hok pg (List.mem_cons_self pg rest)
    have hrest : ∀ q ∈ rest, q.extract_ok = true :=
      fun q hq => hok q (List.mem_cons_of_mem pg hq)
    simp only [importPages]
    by_cases hA : skip = true ∧ ¬p % 5 = 0
    · simp only [if_pos hA]
      exact ih true (p + 1) r acc hrest (fun _ => hskip hA.1) (Or.inr (hskip hA.1))
    · simp only [if_neg hA]
      by_cases hB : p % 5 = 0 ∧ cancelRead (some c) r = true
      · simp only [if_pos hB]
        have hcr : c ≤ r := by simpa [cancelRead] using hB.2
        exact ⟨trivial, by omega⟩
      · simp only [if_neg hB]
        by_cases hC : cancelRead (some c) (if p % 5 = 0 then r + 1 else r) = true
        · simp only [if_pos hC]
          have hcr : c ≤ (if p % 5 = 0 then r + 1 else r) := by
            simpa [cancelRead] using hC
          refine ih true (p + 1) _ acc hrest (fun _ => by omega) (Or.inr (by omega))
        · simp only [if_neg hC]
          simp only [if_pos hpg]
          have hcr : ¬c ≤ (if p % 5 = 0 then r + 1 else r) := by
            intro hle
            exact hC (by simpa [cancelRead] using hle)
          refine ih false (p + 1) _ _ hrest (fun h => by cases h) (Or.inl ?_)
          simp only [ncReads, List.length_cons] at hb
          by_cases h5 : p % 5 = 0
          · simp only [h5, if_pos] at hcr ⊢
            simp only [if_pos h5] at hb ⊢
            omega
          · simp only [if_neg h5] at hcr hb ⊢
            omega

/-- C10: a PDF import whose cancel flag is set early enough to be seen by
one of the loop reads discards every page already rasterized: the store is
returned exactly unchanged and the terminal emission is the cancellation
error message, not a partial-success report. -/
theorem cancelled_import_discards_all_rows (env : PdfEnv) (pages : List PdfPage)
    (df : List PageRecord) (c : Nat)
    (hok : ∀ pg ∈ pages, pg.extract_ok = true)
    (hc : c ≤ ncReads 0 pages.length) :
    pdfImportRun env (some c) (.ok pages) df =
      (df, .importError "Import cancelled by user") := by
  have hmain := importPages_cancel_hits env df.length c pages false 0 0 []
    hok (fun h => by cases h) (Or.inl (by simpa using hc))
  rcases hres : importPages env (some c) df.length pages false 0 0 [] with ⟨rows, r, exc⟩
  rw [hres] at hmain
  obtain ⟨hexc, hcr⟩ := hmain
  have hcr2 : c ≤ r := hcr
  cases exc with
  | some e => simp at hexc
  | none =>
    simp only [pdfImportRun, hres]
    have h1 : cancelRead (some c) r = true := by simpa [cancelRead] using hcr2
    have h2 : cancelRead (some c) (r + 1) = true := by
      simp only [cancelRead, decide_eq_true_eq]
      omega
    simp [h1, h2]

/-- Witness for C10: a seven-page import cancelled at the fourth flag read
returns the empty store unchanged with the cancellation message. -/
theorem cancelled_import_discards_all_rows_case :
    pdfImportRun envPdf (some 3) (.ok (List.replicate 7 (okPage "t"))) [] =
      ([], .importError "Import cancelled by user") :=
  cancelled_import_discards_all_rows envPdf (List.replicate 7 (okPage "t")) [] 3
    (by decide) (by decide)

/-- A decimal digit character has the numeric value of the digit it
prints. -/
theorem digitVal_digitChar (m : Nat) (h : m < 10) : digitVal (Nat.digitChar m) = m := by
  interval_cases m <;> rfl

/-- Reading the digit characters of n back as a decimal numeral, starting
from accumulator a, recovers n below a shifted a. -/
theorem natDigitsAux_foldl (fuel : Nat) :
    ∀ (n a : Nat), n ≤ fuel →
      List.foldl (fun a c => a * 10 + digitVal c) a (natDigitsAux fuel n) =
        a * 10 ^ (natDigitsAux fuel n).length + n := by
  induction fuel with
  | zero =>
    intro n a hn
    have : n = 0 := Nat.le_zero.mp hn
    subst this
    simp [natDigitsAux]
  | succ fuel ih =>
    intro n a hn
    cases n with
    | zero => simp [natDigitsAux]
    | succ m =>
      have hdiv : (m + 1) / 10 ≤ fuel := by
        have := Nat.div_lt_self (Nat.succ_pos m) (by omega : (1 : Nat) < 10)
        omega
      have hmod : (m + 1) % 10 < 10 := Nat.mod_lt _ (by omega)
      simp only [natDigitsAux, List.foldl_append, List.foldl_cons, List.foldl_nil,
        List.length_append, List.length_cons, List.length_nil]
      rw [ih ((m + 1) / 10) a hdiv, digitVal_digitChar _ hmod]
      have hpow : 10 ^ ((natDigitsAux fuel ((m + 1) / 10)).length + (0 + 1)) =
          10 ^ (natDigitsAux fuel ((m + 1) / 10)).length * 10 := by
        rw [pow_succ]
      have hdm := Nat.div_add_mod (m + 1) 10
      calc (a * 10 ^ (natDigitsAux fuel ((m + 1) / 10)).length + (m + 1) / 10) * 10 +
          (m + 1) % 10
        = a * (10 ^ (natDigitsAux fuel ((m + 1) / 10)).length * 10) +
            (10 * ((m + 1) / 10) + (m + 1) % 10) := by ring
      _ = a * 10 ^ ((natDigitsAux fuel ((m + 1) / 10)).length + (0 + 1)) + (m + 1) := by
          rw [hpow, hdm]

/-- Reading the printed decimal digits of n recovers n. -/
theorem ofDecimal_natDigits (n : Nat) : ofDecimal (natDigits n) = n := by
  cases hn : n with
  | zero => rfl
  | succ m =>
    have := natDigitsAux_foldl (m + 1) (m + 1) 0 (le_refl _)
    simp only [natDigits, Nat.succ_ne_zero, if_neg, ofDecimal]
    simpa using this

/-- Leading zero padding does not change the value of a decimal numeral. -/
theorem ofDecimal_pad (w : Nat) (l : List Char) :
    ofDecimal (padZeroTo w l) = ofDecimal l := by
  unfold padZeroTo ofDecimal
  rw [List.foldl_append]
  congr 1
  induction (w - l.length) with
  | zero => rfl
  | succ k ih => simpa [List.replicate_succ, digitVal] using ih

/-- Digit characters are never the underscore. -/
theorem natDigitsAux_ne_underscore (fuel : Nat) :
    ∀ (n : Nat), ∀ c ∈ natDigitsAux fuel n, ¬c = '_' := by
  induction fuel with
  | zero => intro n c hc; simp [natDigitsAux] at hc
  | succ fuel ih =>
    intro n c hc
    cases n with
    | zero => simp [natDigitsAux] at hc
    | succ m =>
      simp only [natDigitsAux, List.mem_append, List.mem_singleton] at hc
      rcases hc with hc | hc
      · exact ih _ c hc
      · subst hc
        have hmod : (m + 1) % 10 < 10 := Nat.mod_lt _ (by omega)
        interval_cases h : (m + 1) % 10 <;> simp [Nat.digitChar]

/-- No character of a printed decimal number is the underscore. -/
theorem natDigits_ne_underscore (n : Nat) : ∀ c ∈ natDigits n, ¬c = '_' := by
  intro c hc
  by_cases hn : n = 0
  · subst hn; simp [natDigits] at hc; subst hc; decide
  · rw [natDigits, if_neg hn] at hc
    exact natDigitsAux_ne_underscore n n c hc

/-- No character of a zero-padded decimal number is the underscore. -/
theorem padZero_ne_underscore (w : Nat) (n : Nat) :
    ∀ c ∈ padZeroTo w (natDigits n), ¬c = '_' := by
  intro c hc
  rcases List.mem_append.mp hc with hc | hc
  · have := List.eq_of_mem_replicate hc
    subst this; decide
  · exact natDigits_ne_underscore n c hc

/-- takeWhile over a list of accepted characters followed by a rejected one
keeps exactly the accepted block. -/
theorem takeWhile_append_not (p : Char → Bool) (x : Char) (hx : p x = false) :
    ∀ (l1 l2 : List Char), (∀ c ∈ l1, p c = true) →
      List.takeWhile p (l1 ++ x :: l2) = l1 := by
  intro l1
  induction l1 with
  | nil => intro l2 _; simp [List.takeWhile_cons, hx]
  | cons c l1 ih =>
    intro l2 hall
    have hc : p c = true := hall c (List.mem_cons_self c l1)
    simp only [List.cons_append, List.takeWhile_cons, hc, if_pos]
    rw [ih l2 (fun d hd => hall d (List.mem_cons_of_mem c hd))]

/-- The leading numeric field of the page token is exactly the zero-padded
decimal form of the index plus one. -/
theorem pageToken_takeWhile (i : Nat) :
    (pageToken i).data.takeWhile (fun c => c ≠ '_') =
      padZeroTo 4 (natDigits (i + 1)) := by
  have hdata : (pageToken i).data =
      padZeroTo 4 (natDigits (i + 1)) ++
        ('_' :: ('p' :: padZeroTo 3 (natDigits (i + 1)))) := by
    simp [pageToken]
  rw [hdata, takeWhile_append_not _ '_' (by decide)]
  intro c hc
  simp only [decide_eq_true_eq]
  exact padZero_ne_underscore 4 (i + 1) c hc

/-- The number encoded in the leading field of the page token is the global
index plus one. -/
theorem tokenNum_pageToken (i : Nat) : tokenNum (pageToken i) = i + 1 := by
  unfold tokenNum
  rw [pageToken_takeWhile, ofDecimal_pad, ofDecimal_natDigits]

/-- Amended C9: the token generated for index 7 is 0008_p008, both fields
encoding the index plus one, the leading field zero-padded to at least four
digits; the token is stored as the Page display label of the imported row,
and distinct indices always give distinct tokens. -/
theorem page_token_encodes_succ_index :
    pageToken 7 = "0008_p008" ∧
    (∀ (env : PdfEnv) (idx : Nat) (t : String), (importRow env idx t).Page = pageToken idx) ∧
    (∀ i, ((pageToken i).data.takeWhile (fun c => c ≠ '_')).length =
      max 4 (natDigits (i + 1)).length) ∧
    (∀ i, tokenNum (pageToken i) = i + 1) ∧
    (∀ i j, pageToken i = pageToken j → i = j) := by
  refine ⟨by decide, fun env idx t => rfl, ?_, tokenNum_pageToken, ?_⟩
  · intro i
    rw [pageToken_takeWhile]
    simp only [padZeroTo, List.length_append, List.length_replicate]
    omega
  · intro i j hij
    have hnum := congrArg tokenNum hij
    rw [tokenNum_pageToken, tokenNum_pageToken] at hnum
    omega

/-- Witness for the amended C9: token injectivity applied at index 3. -/
theorem page_token_encodes_succ_index_case : (3 : Nat) = 3 :=
  page_token_encodes_succ_index.2.2.2.2 3 3 rfl
